import Mathlib

/-!
# Verification of the `maci-demo` commitment-tree engine

A shallow embedding of `src/lib/crypto.ts`: the SHA-256 digest (as used by
`crypto.subtle.digest` over the UTF-8 bytes of the input, rendered as
lowercase hex), the commitment helpers `generateNullifier` and
`createVoteCommitment`, and the `MerkleTree` class with its operations
`addLeaf`, `removeLeaf`, `buildTree`, `getRoot`, `getLeaves`,
`generateProof` and `verifyProof`.

Machine integers are modelled as `Nat` reduced mod `2 ^ 32` where the
source's arithmetic is 32-bit.
-/

namespace Crypto

/-! ## SHA-256 (`sha256` in crypto.ts, via `crypto.subtle.digest`) -/

/-- 32-bit truncation. -/
def mask32 (n : Nat) : Nat := n % 4294967296

/-- 32-bit addition. -/
def add32 (a b : Nat) : Nat := (a + b) % 4294967296

/-- Right rotation of a 32-bit word by `n` bits. -/
def rotr (n w : Nat) : Nat := ((w >>> n) ||| (w <<< (32 - n))) &&& 0xFFFFFFFF

/-- Bitwise complement within 32 bits. -/
def not32 (w : Nat) : Nat := w ^^^ 0xFFFFFFFF

def ch (x y z : Nat) : Nat := (x &&& y) ^^^ (not32 x &&& z)

def maj (x y z : Nat) : Nat := (x &&& y) ^^^ (x &&& z) ^^^ (y &&& z)

def bigSigma0 (x : Nat) : Nat := rotr 2 x ^^^ rotr 13 x ^^^ rotr 22 x

def bigSigma1 (x : Nat) : Nat := rotr 6 x ^^^ rotr 11 x ^^^ rotr 25 x

def smallSigma0 (x : Nat) : Nat := rotr 7 x ^^^ rotr 18 x ^^^ (x >>> 3)

def smallSigma1 (x : Nat) : Nat := rotr 17 x ^^^ rotr 19 x ^^^ (x >>> 10)

/-- The 64 SHA-256 round constants of FIPS 180-4, in decimal. -/
def roundK : List Nat :=
  [1116352408, 1899447441, 3049323471, 3921009573, 961987163,
   1508970993, 2453635748, 2870763221, 3624381080, 310598401,
   607225278, 1426881987, 1925078388, 2162078206, 2614888103,
   3248222580, 3835390401, 4022224774, 264347078, 604807628,
   770255983, 1249150122, 1555081692, 1996064986, 2554220882,
   2821834349, 2952996808, 3210313671, 3336571891, 3584528711,
   113926993, 338241895, 666307205, 773529912, 1294757372,
   1396182291, 1695183700, 1986661051, 2177026350, 2456956037,
   2730485921, 2820302411, 3259730800, 3345764771, 3516065817,
   3600352804, 4094571909, 275423344, 430227734, 506948616,
   659060556, 883997877, 958139571, 1322822218, 1537002063,
   1747873779, 1955562222, 2024104815, 2227730452, 2361852424,
   2428436474, 2756734187, 3204031479, 3329325298]

/-- The eight-word SHA-256 working state. -/
structure Hash8 where
  a : Nat
  b : Nat
  c : Nat
  d : Nat
  e : Nat
  f : Nat
  g : Nat
  h : Nat

/-- Initial SHA-256 hash value (FIPS 180-4), in decimal. -/
def initH : Hash8 :=
  ⟨1779033703, 3144134277, 1013904242, 2773480762,
   1359893119, 2600822924, 528734635, 1541459225⟩

/-- One round of the SHA-256 compression function, consuming a
round-constant/schedule-word pair. -/
def compressRound (s : Hash8) (kw : Nat × Nat) : Hash8 :=
  let t1 := add32 s.h (add32 (bigSigma1 s.e) (add32 (ch s.e s.f s.g) (add32 kw.1 kw.2)))
  let t2 := add32 (bigSigma0 s.a) (maj s.a s.b s.c)
  ⟨add32 t1 t2, s.a, s.b, s.c, add32 s.d t1, s.e, s.f, s.g⟩

/-- Big-endian 4-byte groups to 32-bit words. -/
def bytesToWords : List Nat → List Nat
  | a :: b :: c :: d :: rest => (((a * 256 + b) * 256 + c) * 256 + d) :: bytesToWords rest
  | _ => []

/-- Extend a message schedule by `n` further words. -/
def extendSchedule (w : Array Nat) : Nat → Array Nat
  | 0 => w
  | n + 1 =>
    let t := w.size
    let nw := add32 (add32 (smallSigma1 (w.getD (t - 2) 0)) (w.getD (t - 7) 0))
                    (add32 (smallSigma0 (w.getD (t - 15) 0)) (w.getD (t - 16) 0))
    extendSchedule (w.push nw) n

/-- Process one 64-byte block. -/
def processBlock (hv : Hash8) (block : List Nat) : Hash8 :=
  let w := extendSchedule (bytesToWords block).toArray 48
  let s := (roundK.zip w.toList).foldl compressRound hv
  ⟨add32 hv.a s.a, add32 hv.b s.b, add32 hv.c s.c, add32 hv.d s.d,
   add32 hv.e s.e, add32 hv.f s.f, add32 hv.g s.g, add32 hv.h s.h⟩

/-- Process `fuel` consecutive 64-byte blocks of the padded message. -/
def processChunks (hv : Hash8) (msg : List Nat) : Nat → Hash8
  | 0 => hv
  | n + 1 => processChunks (processBlock hv (msg.take 64)) (msg.drop 64) n

/-- SHA-256 padding: `0x80`, zeros, then the 64-bit big-endian bit length. -/
def padMessage (msg : List Nat) : List Nat :=
  let len := msg.length
  let zeros := (64 - (len + 9) % 64) % 64
  let lenBytes := (List.range 8).map (fun i => ((len * 8) >>> ((7 - i) * 8)) &&& 0xFF)
  msg ++ 0x80 :: List.replicate zeros 0 ++ lenBytes

/-- UTF-8 encoding of one character (`TextEncoder.encode` in crypto.ts). -/
def utf8EncodeChar (c : Char) : List Nat :=
  let n := c.toNat
  if n < 0x80 then [n]
  else if n < 0x800 then [0xC0 ||| (n >>> 6), 0x80 ||| (n &&& 0x3F)]
  else if n < 0x10000 then
    [0xE0 ||| (n >>> 12), 0x80 ||| ((n >>> 6) &&& 0x3F), 0x80 ||| (n &&& 0x3F)]
  else
    [0xF0 ||| (n >>> 18), 0x80 ||| ((n >>> 12) &&& 0x3F),
     0x80 ||| ((n >>> 6) &&& 0x3F), 0x80 ||| (n &&& 0x3F)]

/-- UTF-8 bytes of a string. -/
def strBytes (s : String) : List Nat :=
  s.data.foldr (fun c acc => utf8EncodeChar c ++ acc) []

/-- Lowercase hex digit. -/
def hexChar (n : Nat) : Char :=
  if n < 10 then Char.ofNat (48 + n) else Char.ofNat (87 + n)

/-- Lowercase hex rendering of a 32-bit word, zero-padded to 8 digits
(`b.toString(16).padStart(2, "0")` applied bytewise in crypto.ts). -/
def wordToHex (w : Nat) : List Char :=
  (List.range 8).map (fun i => hexChar ((w >>> ((7 - i) * 4)) &&& 15))

/-- `sha256` from crypto.ts: SHA-256 over the UTF-8 bytes of the input,
rendered as lowercase hex. -/
def sha256 (s : String) : String :=
  let padded := padMessage (strBytes s)
  let hv := processChunks initH padded (padded.length / 64)
  String.mk (wordToHex hv.a ++ wordToHex hv.b ++ wordToHex hv.c ++ wordToHex hv.d ++
             wordToHex hv.e ++ wordToHex hv.f ++ wordToHex hv.g ++ wordToHex hv.h)

/-! ## Commitment helpers (crypto.ts lines 17-30) -/

/-- `generateNullifier(upi)`: digest of the template literal
`nullifier:${upi}`. -/
def generateNullifier (upi : String) : String :=
  sha256 ("nullifier:" ++ upi)

/-- `createVoteCommitment(upi, voteOption, salt)`: digest of the template
literal `${upi}:${voteOption}:${salt}`. The source's default salt
(`Date.now().toString()`) is wall-clock dependent, so the embedding takes
the salt as an explicit argument. -/
def createVoteCommitment (upi voteOption salt : String) : String :=
  sha256 (upi ++ ":" ++ voteOption ++ ":" ++ salt)

/-! ## Merkle tree data model (crypto.ts lines 35-57) -/

/-- `MerkleNode` from crypto.ts: `hash`, optional `left`/`right` children,
`isLeaf` flag and optional `data`. -/
inductive MerkleNode where
  | node (hash : String) (left right : Option MerkleNode)
         (isLeaf : Bool) (data : Option String)

/-- The `hash` field of a node. -/
def MerkleNode.hash : MerkleNode → String
  | .node h _ _ _ _ => h

/-- The `position` tag of a proof step: `"left" | "right"`. -/
inductive Position where
  | left
  | right
deriving DecidableEq, Repr

/-- One entry of a proof's `path`: `{ hash, position }`. -/
structure PathStep where
  hash : String
  position : Position
deriving DecidableEq, Repr

/-- `MerkleProof` from crypto.ts: `{ leaf, path, root }`. -/
structure MerkleProof where
  leaf : String
  path : List PathStep
  root : String
deriving DecidableEq, Repr

/-- The `MerkleTree` class state: the private `leaves` array and the cached
`root` node (`null` when absent). -/
structure MerkleTree where
  leaves : List String
  root : Option MerkleNode

/-- A freshly constructed `MerkleTree`: `leaves = []`, `root = null`. -/
def MerkleTree.empty : MerkleTree := ⟨[], none⟩

/-! ## Tree construction (crypto.ts `buildTree`, lines 83-117) -/

/-- A leaf node as materialized by `buildTree` and `generateProof`:
`{ hash: leaf, isLeaf: true, data: leaf }`. -/
def leafNode (s : String) : MerkleNode :=
  .node s none none true (some s)

/-- The parent of a sibling pair: `{ hash: sha256(left.hash + right.hash),
left, right, isLeaf: false }`. -/
def parentNode (l r : MerkleNode) : MerkleNode :=
  .node (sha256 (l.hash ++ r.hash)) (some l) (some r) false none

/-- One pass of the inner `for (i = 0; i < n; i += 2)` loop of `buildTree`:
adjacent nodes pair up; a trailing lone node takes itself as its right
sibling (`right = ... ? ... : left`). -/
def pairUp : List MerkleNode → List MerkleNode
  | [] => []
  | [x] => [parentNode x x]
  | x :: y :: rest => parentNode x y :: pairUp rest

theorem pairUp_length (l : List MerkleNode) :
    (pairUp l).length = (l.length + 1) / 2 := by
  induction l using pairUp.induct with
  | case1 => simp [pairUp]
  | case2 x => simp [pairUp]
  | case3 x y rest ih => simp [pairUp, ih]; omega

/-- The `while (currentLevel.length > 1)` loop of `buildTree`, with an
explicit iteration bound: each pass collapses a level of `n ≥ 2` nodes to
`⌈n/2⌉ < n` nodes, so the initial level length bounds the number of
iterations and serves as structural fuel. `buildRootGo_fuel` below shows
the exhausted-fuel branch is unreachable whenever `fuel ≥ level.length`. -/
def buildRootGo : Nat → List MerkleNode → Option MerkleNode
  | _, [] => none
  | _, [x] => some x
  | 0, x :: _ :: _ => some x
  | fuel + 1, x :: y :: rest => buildRootGo fuel (pairUp (x :: y :: rest))

/-- The level-collapsing loop of `buildTree`, run with sufficient fuel. -/
def buildRoot (l : List MerkleNode) : Option MerkleNode :=
  buildRootGo l.length l

/-- Any fuel at least the level length computes `buildRoot`: the
exhausted-fuel branch of `buildRootGo` is dead code. -/
theorem buildRootGo_fuel (fuel : Nat) :
    ∀ l : List MerkleNode, l.length ≤ fuel → buildRootGo fuel l = buildRoot l := by
  induction fuel using Nat.strong_induction_on with
  | _ fuel ih =>
    intro l hl
    cases l with
    | nil => cases fuel <;> rfl
    | cons x xs =>
      cases xs with
      | nil => cases fuel <;> rfl
      | cons y rest =>
        cases fuel with
        | zero => simp at hl
        | succ f =>
          simp only [List.length_cons] at hl
          have hlen : (pairUp (x :: y :: rest)).length ≤ f := by
            simp only [pairUp_length, List.length_cons]
            omega
          have hlen' : (pairUp (x :: y :: rest)).length ≤ rest.length + 1 := by
            simp only [pairUp_length, List.length_cons]
            omega
          calc buildRootGo (f + 1) (x :: y :: rest)
              = buildRootGo f (pairUp (x :: y :: rest)) := rfl
            _ = buildRoot (pairUp (x :: y :: rest)) := ih f (by omega) _ hlen
            _ = buildRootGo (rest.length + 1) (pairUp (x :: y :: rest)) :=
                (ih (rest.length + 1) (by omega) _ hlen').symm
            _ = buildRoot (x :: y :: rest) := rfl

/-- `buildTree` as a pure function of the leaf sequence: `null` root on an
empty sequence, otherwise the bottom-up rebuild from the leaf nodes. -/
def buildTree (leaves : List String) : Option MerkleNode :=
  if leaves = [] then none else buildRoot (leaves.map leafNode)

/-! ## Mutations (crypto.ts `addLeaf` / `removeLeaf`, lines 62-79) -/

/-- `addLeaf(commitment)`: no-op when the value is already in `leaves`
(`!this.leaves.includes(commitment)` guard); otherwise push and rebuild. -/
def MerkleTree.addLeaf (t : MerkleTree) (commitment : String) : MerkleTree :=
  if commitment ∈ t.leaves then t
  else { leaves := t.leaves ++ [commitment],
         root := buildTree (t.leaves ++ [commitment]) }

/-- `indexOf` followed by `splice(index, 1)`: drop the first occurrence. -/
def removeFirst : List String → String → List String
  | [], _ => []
  | x :: xs, c => if x = c then xs else x :: removeFirst xs c

/-- `removeLeaf(commitment)`: no-op when absent (`indexOf === -1`);
otherwise splice out the first occurrence and rebuild. -/
def MerkleTree.removeLeaf (t : MerkleTree) (commitment : String) : MerkleTree :=
  if commitment ∈ t.leaves then
    { leaves := removeFirst t.leaves commitment,
      root := buildTree (removeFirst t.leaves commitment) }
  else t

/-! ## Reads (crypto.ts lines 122-131) -/

/-- `getRoot()`: `this.root ? this.root.hash : null`. -/
def MerkleTree.getRoot (t : MerkleTree) : Option String :=
  t.root.map MerkleNode.hash

/-- `getLeaves()`: a copy of the leaf array. -/
def MerkleTree.getLeaves (t : MerkleTree) : List String :=
  t.leaves

/-! ## Proof generation (crypto.ts `generateProof`, lines 136-184) -/

/-- `this.leaves.indexOf(leafHash)`, with `none` for `-1`. -/
def idxOf (x : String) : List String → Option Nat
  | [] => none
  | y :: ys => if y = x then some 0 else (idxOf x ys).map (· + 1)

/-- The sibling steps pushed during one pass of `generateProof`'s inner
pair loop, scanning from offset `i`: when the pair starting at `i` covers
the tracked index, the opposite member's hash is pushed — unless the
tracked node is a trailing lone node, where the `i + 1 <
currentLevel.length` guard fails and nothing is pushed. -/
def sibSteps (idx : Nat) : Nat → List MerkleNode → List PathStep
  | _, [] => []
  | _, [_] => []
  | i, x :: y :: rest =>
    (if i = idx then [⟨y.hash, .right⟩]
     else if i + 1 = idx then [⟨x.hash, .left⟩]
     else [])
    ++ sibSteps idx (i + 2) rest

/-- The `while (currentLevel.length > 1)` loop of `generateProof`: collect
this level's sibling step, halve the tracked index
(`Math.floor(currentIndex / 2)`), recurse on the paired-up level. As in
`buildRootGo`, the initial level length bounds the iteration count and
serves as structural fuel; `genPathGo_fuel` shows the exhausted-fuel
branch is dead. -/
def genPathGo : Nat → List MerkleNode → Nat → List PathStep
  | _, [], _ => []
  | _, [_], _ => []
  | 0, _ :: _ :: _, _ => []
  | fuel + 1, x :: y :: rest, idx =>
    sibSteps idx 0 (x :: y :: rest) ++
      genPathGo fuel (pairUp (x :: y :: rest)) (idx / 2)

/-- The path-collecting loop of `generateProof`, run with sufficient fuel. -/
def genPath (level : List MerkleNode) (idx : Nat) : List PathStep :=
  genPathGo level.length level idx

/-- Any fuel at least the level length computes `genPath`: the
exhausted-fuel branch of `genPathGo` is dead code. -/
theorem genPathGo_fuel (fuel : Nat) :
    ∀ (l : List MerkleNode) (idx : Nat),
      l.length ≤ fuel → genPathGo fuel l idx = genPath l idx := by
  induction fuel using Nat.strong_induction_on with
  | _ fuel ih =>
    intro l idx hl
    cases l with
    | nil => cases fuel <;> rfl
    | cons x xs =>
      cases xs with
      | nil => cases fuel <;> rfl
      | cons y rest =>
        cases fuel with
        | zero => simp at hl
        | succ f =>
          simp only [List.length_cons] at hl
          have hlen : (pairUp (x :: y :: rest)).length ≤ f := by
            simp only [pairUp_length, List.length_cons]
            omega
          have hlen' : (pairUp (x :: y :: rest)).length ≤ rest.length + 1 := by
            simp only [pairUp_length, List.length_cons]
            omega
          calc genPathGo (f + 1) (x :: y :: rest) idx
              = sibSteps idx 0 (x :: y :: rest) ++
                  genPathGo f (pairUp (x :: y :: rest)) (idx / 2) := rfl
            _ = sibSteps idx 0 (x :: y :: rest) ++
                  genPath (pairUp (x :: y :: rest)) (idx / 2) := by
                rw [ih f (by omega) _ _ hlen]
            _ = sibSteps idx 0 (x :: y :: rest) ++
                  genPathGo (rest.length + 1) (pairUp (x :: y :: rest)) (idx / 2) := by
                rw [ih (rest.length + 1) (by omega) _ _ hlen']
            _ = genPath (x :: y :: rest) idx := rfl

/-- `generateProof(leafHash)`: `null` when the leaf is absent or the tree
has no root; otherwise the path walked from the leaf's index, with the
stored root's hash attached. -/
def MerkleTree.generateProof (t : MerkleTree) (leafHash : String) :
    Option MerkleProof :=
  match idxOf leafHash t.leaves, t.root with
  | some i, some r => some ⟨leafHash, genPath (t.leaves.map leafNode) i, r.hash⟩
  | _, _ => none

/-! ## Proof verification (crypto.ts `verifyProof`, lines 189-201) -/

/-- The body of `verifyProof`'s `for (const step of proof.path)` loop. -/
def verifyStep (cur : String) (step : PathStep) : String :=
  match step.position with
  | .left => sha256 (step.hash ++ cur)
  | .right => sha256 (cur ++ step.hash)

/-- `verifyProof(proof)`: fold the path onto the leaf and compare with the
declared root. A pure function of the proof alone. -/
def MerkleTree.verifyProof (proof : MerkleProof) : Bool :=
  proof.path.foldl verifyStep proof.leaf == proof.root

/-! ## Operation sequences -/

/-- One mutation against a `MerkleTree`. -/
inductive TreeOp where
  | add (v : String)
  | remove (v : String)

/-- Apply one mutation. -/
def applyOp (t : MerkleTree) : TreeOp → MerkleTree
  | .add v => t.addLeaf v
  | .remove v => t.removeLeaf v

/-- Run a sequence of mutations against a fresh tree. -/
def runOps (ops : List TreeOp) : MerkleTree :=
  ops.foldl applyOp MerkleTree.empty

/-! ## Helper lemmas -/

theorem buildRootGo_isSome (fuel : Nat) :
    ∀ l : List MerkleNode, l ≠ [] → l.length ≤ fuel →
      (buildRootGo fuel l).isSome := by
  induction fuel using Nat.strong_induction_on with
  | _ fuel ih =>
    intro l hne hl
    cases l with
    | nil => exact absurd rfl hne
    | cons x xs =>
      cases xs with
      | nil => cases fuel <;> rfl
      | cons y rest =>
        cases fuel with
        | zero => simp at hl
        | succ f =>
          simp only [List.length_cons] at hl
          have hlen : (pairUp (x :: y :: rest)).length ≤ f := by
            simp only [pairUp_length, List.length_cons]
            omega
          exact ih f (by omega) _ (by simp [pairUp]) hlen

theorem buildRoot_isSome (l : List MerkleNode) (h : l ≠ []) :
    (buildRoot l).isSome :=
  buildRootGo_isSome l.length l h le_rfl

theorem buildTree_eq_none_iff (l : List String) :
    buildTree l = none ↔ l = [] := by
  constructor
  · intro h
    by_contra hne
    have hs := buildRoot_isSome (l.map leafNode) (by simpa using hne)
    rw [buildTree, if_neg hne] at h
    simp [h] at hs
  · intro h
    subst h
    rfl

/-- The cached `root` field always equals the rebuild of the current
leaf sequence. -/
def Consistent (t : MerkleTree) : Prop :=
  t.root = buildTree t.leaves

theorem consistent_empty : Consistent MerkleTree.empty := rfl

theorem consistent_applyOp (t : MerkleTree) (op : TreeOp)
    (h : Consistent t) : Consistent (applyOp t op) := by
  cases op with
  | add v =>
    by_cases hv : v ∈ t.leaves
    · simpa [applyOp, MerkleTree.addLeaf, hv] using h
    · simp [applyOp, MerkleTree.addLeaf, hv, Consistent]
  | remove v =>
    by_cases hv : v ∈ t.leaves
    · simp [applyOp, MerkleTree.removeLeaf, hv, Consistent]
    · simpa [applyOp, MerkleTree.removeLeaf, hv] using h

theorem consistent_foldl (ops : List TreeOp) :
    ∀ t : MerkleTree, Consistent t → Consistent (ops.foldl applyOp t) := by
  induction ops with
  | nil => intro t h; simpa using h
  | cons op rest ih =>
    intro t h
    exact ih (applyOp t op) (consistent_applyOp t op h)

theorem consistent_runOps (ops : List TreeOp) : Consistent (runOps ops) :=
  consistent_foldl ops MerkleTree.empty consistent_empty

theorem removeFirst_eq_erase (l : List String) (x : String) :
    removeFirst l x = l.erase x := by
  induction l with
  | nil => rfl
  | cons y ys ih =>
    by_cases hy : y = x
    · simp [removeFirst, List.erase_cons, hy]
    · simp [removeFirst, List.erase_cons, hy, ih]

/-- The accumulator recursion of the spec's step-by-step description of
`verifyProof`, stated as its own function for comparison with the
source's fold. -/
def specAccum (acc : String) : List PathStep → String
  | [] => acc
  | s :: rest =>
    specAccum
      (match s.position with
       | .left => sha256 (s.hash ++ acc)
       | .right => sha256 (acc ++ s.hash)) rest

theorem foldl_verifyStep_eq_specAccum (path : List PathStep) (acc : String) :
    path.foldl verifyStep acc = specAccum acc path := by
  induction path generalizing acc with
  | nil => rfl
  | cons s rest ih =>
    cases hp : s.position <;> simp [List.foldl, specAccum, verifyStep, hp, ih]

/-! ## Claim theorems -/

set_option maxRecDepth 100000 in
/-- C1: the round-trip property fails on the code. With leaves
`["h1", "h2", "h3"]` — reachable by three `addLeaf` calls on a fresh
tree — `generateProof "h3"` returns a proof, and `verifyProof` rejects
it: the lone-node level pushes no step (the `i + 1 < currentLevel.length`
guard fails), so the fold never performs the duplicate-padding hash. -/
theorem roundtrip_fails_on_lone_leaf :
    ((((MerkleTree.empty.addLeaf "h1").addLeaf "h2").addLeaf "h3").generateProof
        "h3").map MerkleTree.verifyProof = some false := by
  decide

set_option maxRecDepth 100000 in
/-- C2: no self-sibling step is recorded. For leaves `["h1", "h2", "h3"]`,
the proof for `"h3"` carries exactly one step — the level-1 left sibling
`sha256("h1" + "h2")` — and nothing at all for the lone-node level 0,
contradicting the claim that the node's own hash is recorded there so
that folding rebuilds `sha256("h3" + "h3")`. -/
theorem no_step_recorded_for_lone_leaf :
    (((MerkleTree.empty.addLeaf "h1").addLeaf "h2").addLeaf "h3").generateProof
        "h3" =
      some ⟨"h3", [⟨sha256 ("h1" ++ "h2"), Position.left⟩],
            sha256 (sha256 ("h1" ++ "h2") ++ sha256 ("h3" ++ "h3"))⟩ := by
  decide

/-- C3: leaves `[h1, h2, h3]` give root
`sha256(sha256(h1 + h2) + sha256(h3 + h3))`, and in general a level of
odd length pairs its last node with itself as both children. -/
theorem odd_level_duplicate_padding :
    (∀ h1 h2 h3 : String,
      (buildTree [h1, h2, h3]).map MerkleNode.hash =
        some (sha256 (sha256 (h1 ++ h2) ++ sha256 (h3 ++ h3)))) ∧
    ∀ (l : List MerkleNode) (x : MerkleNode), l.length % 2 = 0 →
      pairUp (l ++ [x]) = pairUp l ++ [parentNode x x] := by
  constructor
  · intro h1 h2 h3
    rfl
  · intro l x h
    induction l using pairUp.induct with
    | case1 => simp [pairUp]
    | case2 y => simp at h
    | case3 y z rest ih =>
      simp only [List.length_cons] at h
      simp [pairUp, ih (by omega)]

/-- C3 witness: duplicate padding evaluated at singleton level `["h3"]`
and at the three concrete leaves of the spec's scenario. -/
theorem odd_level_duplicate_padding_app :
    ([] : List MerkleNode).length % 2 = 0 ∧
    pairUp ([] ++ [leafNode "h3"]) =
      pairUp [] ++ [parentNode (leafNode "h3") (leafNode "h3")] ∧
    (buildTree ["h1", "h2", "h3"]).map MerkleNode.hash =
      some (sha256 (sha256 ("h1" ++ "h2") ++ sha256 ("h3" ++ "h3"))) :=
  ⟨rfl, odd_level_duplicate_padding.2 [] (leafNode "h3") rfl,
   odd_level_duplicate_padding.1 "h1" "h2" "h3"⟩

/-- C4: `verifyProof` accepts a proof exactly when the spec's accumulator
recursion — start from the proof's `leaf`, hash the step on the side its
`position` names, step by step in path order — ends at the proof's
`root`. The function consumes only the proof value, no tree state. -/
theorem verifyProof_iff_specAccum (p : MerkleProof) :
    MerkleTree.verifyProof p = true ↔ specAccum p.leaf p.path = p.root := by
  rw [MerkleTree.verifyProof, foldl_verifyStep_eq_specAccum]
  exact beq_iff_eq

/-- C5: a fresh (empty) tree has absent root, and `generateProof` returns
absent on every input; both are total functions, so neither throws. -/
theorem empty_tree_absent (v : String) :
    MerkleTree.empty.getRoot = none ∧
    MerkleTree.empty.generateProof v = none :=
  ⟨rfl, rfl⟩

/-- C6: `addLeaf` is a no-op on a present value and appends an absent
value; consequently adding the same value twice equals adding it once. -/
theorem addLeaf_idempotent (t : MerkleTree) (x : String) :
    (t.addLeaf x =
      if x ∈ t.leaves then t
      else ⟨t.leaves ++ [x], buildTree (t.leaves ++ [x])⟩) ∧
    (t.addLeaf x).addLeaf x = t.addLeaf x := by
  refine ⟨rfl, ?_⟩
  by_cases h : x ∈ t.leaves
  · simp [MerkleTree.addLeaf, h]
  · simp [MerkleTree.addLeaf, h]

/-- C7: `removeLeaf` is a no-op on an absent value and otherwise erases
the first occurrence, preserving the order of the survivors; in
particular `insert a; insert b; remove a` equals `insert b` alone. -/
theorem removeLeaf_correct :
    (∀ (t : MerkleTree) (x : String),
      (x ∉ t.leaves → t.removeLeaf x = t) ∧
      (x ∈ t.leaves → (t.removeLeaf x).leaves = t.leaves.erase x)) ∧
    ∀ a b : String, a ≠ b →
      ((MerkleTree.empty.addLeaf a).addLeaf b).removeLeaf a =
        MerkleTree.empty.addLeaf b := by
  constructor
  · intro t x
    constructor
    · intro h
      simp [MerkleTree.removeLeaf, h]
    · intro h
      simp [MerkleTree.removeLeaf, h, removeFirst_eq_erase]
  · intro a b hab
    simp [MerkleTree.empty, MerkleTree.addLeaf, MerkleTree.removeLeaf,
          removeFirst, Ne.symm hab, hab]

/-- C7 witness: removal evaluated at the concrete values `"a"`, `"b"`. -/
theorem removeLeaf_correct_app :
    ("x" ∉ MerkleTree.empty.leaves ∧
      MerkleTree.empty.removeLeaf "x" = MerkleTree.empty) ∧
    ("a" : String) ≠ "b" ∧
    ((MerkleTree.empty.addLeaf "a").addLeaf "b").removeLeaf "a" =
      MerkleTree.empty.addLeaf "b" :=
  ⟨⟨by decide, (removeLeaf_correct.1 MerkleTree.empty "x").1 (by decide)⟩,
   by decide, removeLeaf_correct.2 "a" "b" (by decide)⟩

/-- C8: the nullifier is the digest of `"nullifier:" + secretIdentity`,
and the commitment with explicit salt is the digest of
`secretIdentity + ":" + choice + ":" + salt`. -/
theorem nullifier_commitment_construction (upi choice salt : String) :
    generateNullifier upi = sha256 ("nullifier:" ++ upi) ∧
    createVoteCommitment upi choice salt =
      sha256 (upi ++ ":" ++ choice ++ ":" ++ salt) :=
  ⟨rfl, rfl⟩

/-- C9: a proof with an empty path verifies exactly when its `leaf` field
equals its `root` field; in particular `{leaf: s, path: [], root: s}`
always verifies, with no tree in sight. -/
theorem empty_path_self_proof (s leaf root : String) :
    MerkleTree.verifyProof ⟨s, [], s⟩ = true ∧
    (MerkleTree.verifyProof ⟨leaf, [], root⟩ = true ↔ leaf = root) := by
  refine ⟨?_, ?_⟩
  · simp [MerkleTree.verifyProof]
  · simp [MerkleTree.verifyProof]

/-- C10: after any sequence of `addLeaf`/`removeLeaf` operations on a
fresh tree, `getRoot` is absent exactly when `getLeaves` is empty. -/
theorem root_none_iff_leaves_empty (ops : List TreeOp) :
    (runOps ops).getRoot = none ↔ (runOps ops).getLeaves = [] := by
  have h := consistent_runOps ops
  unfold Consistent at h
  rw [MerkleTree.getRoot, MerkleTree.getLeaves, Option.map_eq_none', h,
      buildTree_eq_none_iff]

end Crypto
